import Mathlib

/-!
Verification of the beancount-to-jsonl converter
(src/processor/ledger/beancount_to_jsonl.py).

The development shallowly embeds the module's functions over `List Char`
and `String`.  File contents are the decoded text a Python text-mode
read yields (universal-newline translation means the text contains no
carriage returns produced by line endings, but the embedding treats any
string).  Helpers imported from modules that are not part of this
repository snapshot (src.utils.helpers, src.utils.constants) are
modelled from the specification and marked as such.
-/

/-- Modelled from the spec: the constant `empty_escape_sequences` from
src.utils.constants is not in the repository snapshot; the spec describes
it as the boundary whitespace/newline character class used both for
blank-line detection and for trimming.  It is modelled as the four
whitespace characters newline, carriage return, tab and space. -/
def empty_escape_sequences : List Char := ['\n', '\r', '\t', ' ']

/-- Membership in `empty_escape_sequences`, the character class of the
blank-line pattern and of every `.strip(empty_escape_sequences)` call. -/
def isWsChar (c : Char) : Bool :=
  c == '\n' || c == '\r' || c == '\t' || c == ' '

/-- Python `str.split` on a single newline separator: the pieces between
newline characters, without the separators.  `splitChar [] = [[]]`, as in
Python where an empty string splits into one empty piece. -/
def splitChar : List Char → List (List Char)
  | [] => [[]]
  | c :: cs =>
    if c = '\n' then [] :: splitChar cs
    else
      match splitChar cs with
      | [] => [[c]]
      | l :: ls => (c :: l) :: ls

/-- Rejoin split lines with newline separators (inverse of `splitChar`). -/
def joinLines : List (List Char) → List Char
  | [] => []
  | [l] => l
  | l :: ls => l ++ '\n' :: joinLines ls

/-- A line (newline-free piece) consisting entirely of characters of the
blank-line character class: such a line is matched by the blank-line
pattern of the extractor. -/
def blankLine (l : List Char) : Bool := l.all isWsChar

/-- Python `str.strip(empty_escape_sequences)`: remove characters of the
class from both ends. -/
def stripWs (cs : List Char) : List Char :=
  ((cs.dropWhile isWsChar).reverse.dropWhile isWsChar).reverse

/-- Check a list of single-character predicates against the prefix of a
character list: the i-th character must exist and satisfy the i-th
predicate. -/
def checkSeq : List (Char → Bool) → List Char → Bool
  | [], _ => true
  | _ :: _, [] => false
  | p :: ps, c :: cs => p c && checkSeq ps cs

/-- ASCII decimal digit test, the embedding of the pattern token `\d`
applied to the all-ASCII date syntax targeted by the extractor. -/
def isDigitChar (c : Char) : Bool :=
  48 ≤ c.toNat && c.toNat ≤ 57

/-- The fixed-width body of `transaction_regex`
(`\d{4}-\d{2}-\d{2} [\*|\!] `): four digits, hyphen, two digits,
hyphen, two digits, space, one character of the class written
`[\*|\!]` in the source — which contains the three characters
asterisk, pipe and exclamation mark — and a final space. -/
def anchorSpecs : List (Char → Bool) :=
  [isDigitChar, isDigitChar, isDigitChar, isDigitChar,
   fun c => c == '-', isDigitChar, isDigitChar,
   fun c => c == '-', isDigitChar, isDigitChar,
   fun c => c == ' ',
   fun c => c == '*' || c == '|' || c == '!',
   fun c => c == ' ']

/-- Anchored match of the fixed-width transaction pattern at the start of
a character list. -/
def txnAnchor (cs : List Char) : Bool := checkSeq anchorSpecs cs

/-- Embedding of `re.match(transaction_regex, entry)` where
`transaction_regex` is `^\n?\d{4}-\d{2}-\d{2} [\*|\!] `: the optional
leading newline is either consumed (when present) or matched empty. -/
def re_match_transaction (cs : List Char) : Bool :=
  txnAnchor cs ||
    (match cs with
     | '\n' :: rest => txnAnchor rest
     | _ => false)

/-- One step of the segment scan of
`re.split(empty_newline, ledger_content, flags=re.MULTILINE)` where
`empty_newline` is `^[<class>]*$`, expressed over the newline-split
lines of the content.  Matches of that pattern start exactly at the
first line of each maximal run of blank lines; a match greedily consumes
class characters up to the last newline inside the run (or to the end of
the text when the run is final), which yields for each blank run one
split point, plus an extra zero-width split point (an empty segment)
when the run has at least two lines and ends with an empty line, and a
trailing empty segment when the run is final.  The following segment
therefore keeps the final newline of the run as its first character,
which is the `pre` argument of the recursion.  `fuel` bounds the number
of scan steps; one line is consumed per step, so `fuel = ls.length`
always suffices. -/
def reSplitGo : Nat → List Char → List (List Char) → List (List Char)
  | 0, _, _ => []
  | fuel + 1, pre, ls =>
    if (ls.dropWhile fun l => !blankLine l) = [] then
      [pre ++ joinLines ls]
    else
      (pre ++
        (if (ls.takeWhile fun l => !blankLine l) = [] then []
         else joinLines (ls.takeWhile fun l => !blankLine l) ++ ['\n'])) ::
      ((if 2 ≤ ((ls.dropWhile fun l => !blankLine l).takeWhile blankLine).length ∧
            ((ls.dropWhile fun l => !blankLine l).takeWhile blankLine).getLastD [] = []
        then [([] : List Char)] else []) ++
       (if ((ls.dropWhile fun l => !blankLine l).dropWhile blankLine) = [] then [([] : List Char)]
        else reSplitGo fuel ['\n']
          ((ls.dropWhile fun l => !blankLine l).dropWhile blankLine)))

/-- Embedding of `re.split(empty_newline, content, flags=re.MULTILINE)`:
split the content at blank lines, keeping the zero-width-match artifacts
of the scan (empty segments, and the leading newline carried by every
segment that follows a split point). -/
def re_split_blank (content : List Char) : List (List Char) :=
  reSplitGo (splitChar content).length [] (splitChar content)

/-- The per-file body of `extract_beancount_entries`: split the file text
at blank lines, keep the segments matched by `transaction_regex`, and
strip each retained segment of boundary whitespace. -/
def extract_entries_from_content (content : List Char) : List (List Char) :=
  ((re_split_blank content).filter re_match_transaction).map stripWs

/-- Embedding of `extract_beancount_entries`: extract entries file by
file, in order; `readFile` gives the text content of each file path. -/
def extract_beancount_entries (files : List String) (readFile : String → String) :
    List String :=
  files.flatMap fun f =>
    (extract_entries_from_content (readFile f).data).map fun cs => String.mk cs

/-- The clean blank-line decomposition described by the spec: the maximal
runs of consecutive non-blank lines of the content, each run joined back
with its internal newlines, without the scan artifacts of `reSplitGo`.
`fuel` plays the same role as in `reSplitGo`. -/
def blocksGo : Nat → List (List Char) → List (List Char)
  | 0, _ => []
  | fuel + 1, ls =>
    if (ls.dropWhile fun l => !blankLine l) = [] then
      if ls = [] then [] else [joinLines ls]
    else
      (if (ls.takeWhile fun l => !blankLine l) = [] then []
       else [joinLines (ls.takeWhile fun l => !blankLine l)]) ++
      blocksGo fuel ((ls.dropWhile fun l => !blankLine l).dropWhile blankLine)

/-- The blank-line-separated segments of a text, as the spec words them:
the text is split at lines consisting entirely of whitespace characters,
and each remaining maximal group of adjacent lines is one segment. -/
def spec_blank_separated_segments (content : List Char) : List (List Char) :=
  blocksGo (splitChar content).length (splitChar content)

/-- The spec's description of the extractor on one file: keep the
blank-line-separated segments whose leading content matches the
transaction-start anchor, and trim each of boundary whitespace. -/
def spec_extract_entries (content : List Char) : List (List Char) :=
  ((spec_blank_separated_segments content).filter txnAnchor).map stripWs

/-- Lowercase hexadecimal digit characters, as used by Python's json
string escaper for control characters. -/
def hexChar (n : Nat) : Char :=
  Char.ofNat (if n ≤ 9 then n + 48 else n + 87)

/-- Embedding of the per-character escaping of
`json.dumps(..., ensure_ascii=False)` on string values: backslash and
double quote get backslash escapes, the named control characters get
their two-character escapes, every other character below 0x20 becomes a
lowercase `\u00xx` escape, and all remaining characters (including all
non-ASCII) are emitted unchanged. -/
def escapeChar (c : Char) : List Char :=
  if c = '"' then ['\\', '"']
  else if c = '\\' then ['\\', '\\']
  else if c = '\n' then ['\\', 'n']
  else if c = '\r' then ['\\', 'r']
  else if c = '\t' then ['\\', 't']
  else if c = '\x08' then ['\\', 'b']
  else if c = '\x0c' then ['\\', 'f']
  else if c.toNat < 32 then
    '\\' :: 'u' :: '0' :: '0' :: hexChar (c.toNat / 16) :: hexChar (c.toNat % 16) :: []
  else [c]

/-- JSON string-body escaping of a whole character list. -/
def jsonEscape (cs : List Char) : List Char := cs.flatMap escapeChar

/-- The constant serialized prefix of `json.dumps({'Title': entry},
ensure_ascii=False)`: an opening brace, the quoted key Title, a colon
and a space, and the opening quote of the value. -/
def titleKey : List Char :=
  ['{', '"', 'T', 'i', 't', 'l', 'e', '"', ':', ' ', '"']

/-- Embedding of `json.dumps({'Title': entry}, ensure_ascii=False)`. -/
def json_dumps_title (e : List Char) : List Char :=
  titleKey ++ jsonEscape e ++ ['"', '}']

/-- Embedding of `convert_beancount_entries_to_jsonl`: serialize each
entry as a single-key JSON object and append a newline, concatenating
everything into one JSONL string.  (The verbose path only prints a
count and does not affect the returned data.) -/
def convert_beancount_entries_to_jsonl (entries : List String) : String :=
  String.mk ((entries.map fun e => json_dumps_title e.data ++ ['\n']).flatten)

/-- Embedding of `dump_jsonl`: the written file text is exactly
`jsonl_data` (UTF-8 text write); the second component is the verbose
report `len(jsonl_data.split('\n'))`, emitted only when `verbose > 0`. -/
def dump_jsonl (jsonl_data : String) (verbose : Nat) : String × Option Nat :=
  (jsonl_data,
   if verbose > 0 then some (splitChar jsonl_data.data).length else none)

/-- Standard UTF-8 encoding of one character. -/
def pyUtf8EncodeChar (c : Char) : List Nat :=
  let n := c.toNat
  if n < 128 then [n]
  else if n < 2048 then [192 + n / 64, 128 + n % 64]
  else if n < 65536 then [224 + n / 4096, 128 + (n / 64) % 64, 128 + n % 64]
  else [240 + n / 262144, 128 + (n / 4096) % 64, 128 + (n / 64) % 64, 128 + n % 64]

/-- UTF-8 byte sequence of a character list. -/
def pyUtf8Encode (cs : List Char) : List Nat := cs.flatMap pyUtf8EncodeChar

/-- Modelled from the spec: the gzip codec used by `gzip.open(..., 'wt')`
is an external lossless compressor; it is modelled as a reversible byte
encoding that frames the payload behind the two gzip magic bytes. -/
def gzip_compress_bytes (payload : List Nat) : List Nat :=
  31 :: 139 :: payload

/-- Modelled from the spec: inverse of the modelled gzip codec. -/
def gzip_decompress_bytes (stored : List Nat) : List Nat := stored.drop 2

/-- Embedding of `compress_jsonl_data`: the stored file bytes are the
gzip compression of the UTF-8 encoded JSONL text; the second component
is the same verbose line-count report as `dump_jsonl`. -/
def compress_jsonl_data (jsonl_data : String) (verbose : Nat) : List Nat × Option Nat :=
  (gzip_compress_bytes (pyUtf8Encode jsonl_data.data),
   if verbose > 0 then some (splitChar jsonl_data.data).length else none)

/-- Value of one hexadecimal digit character, upper or lower case. -/
def hexVal (c : Char) : Option Nat :=
  if 48 ≤ c.toNat ∧ c.toNat ≤ 57 then some (c.toNat - 48)
  else if 97 ≤ c.toNat ∧ c.toNat ≤ 102 then some (c.toNat - 87)
  else if 65 ≤ c.toNat ∧ c.toNat ≤ 70 then some (c.toNat - 55)
  else none

/-- JSON string-body parser (the part of `json.loads` exercised by this
module's single-key records): consume characters up to an unescaped
closing quote, decoding backslash escapes; `\uXXXX` decodes one code
unit (surrogate pairs never occur in this module's output, which only
uses `\u00xx` for control characters).  Returns the decoded body and
the input remaining after the closing quote. -/
def parseStr : List Char → Option (List Char × List Char)
  | [] => none
  | c :: rest =>
    if c = '"' then some ([], rest)
    else if c = '\\' then
      match rest with
      | [] => none
      | e :: rest2 =>
        if e = 'n' then (parseStr rest2).map fun p => ('\n' :: p.1, p.2)
        else if e = 'r' then (parseStr rest2).map fun p => ('\r' :: p.1, p.2)
        else if e = 't' then (parseStr rest2).map fun p => ('\t' :: p.1, p.2)
        else if e = 'b' then (parseStr rest2).map fun p => ('\x08' :: p.1, p.2)
        else if e = 'f' then (parseStr rest2).map fun p => ('\x0c' :: p.1, p.2)
        else if e = '"' then (parseStr rest2).map fun p => ('"' :: p.1, p.2)
        else if e = '\\' then (parseStr rest2).map fun p => ('\\' :: p.1, p.2)
        else if e = '/' then (parseStr rest2).map fun p => ('/' :: p.1, p.2)
        else if e = 'u' then
          match rest2 with
          | h1 :: h2 :: h3 :: h4 :: rest3 =>
            match hexVal h1, hexVal h2, hexVal h3, hexVal h4 with
            | some a, some b, some c3, some d =>
              (parseStr rest3).map fun p =>
                (Char.ofNat (((a * 16 + b) * 16 + c3) * 16 + d) :: p.1, p.2)
            | _, _, _, _ => none
          | _ => none
        else none
    else (parseStr rest).map fun p => (c :: p.1, p.2)

/-- Embedding of `json.loads` restricted to the grammar of the records
this module writes: exactly one object with the single key Title and a
string value. -/
def json_loads_title (cs : List Char) : Option (List Char) :=
  match cs with
  | c0 :: c1 :: c2 :: c3 :: c4 :: c5 :: c6 :: c7 :: c8 :: c9 :: c10 :: rest =>
    if c0 = '{' ∧ c1 = '"' ∧ c2 = 'T' ∧ c3 = 'i' ∧ c4 = 't' ∧ c5 = 'l' ∧ c6 = 'e' ∧
        c7 = '"' ∧ c8 = ':' ∧ c9 = ' ' ∧ c10 = '"' then
      match parseStr rest with
      | some (s, ['}']) => some s
      | _ => none
    else none
  | _ => none

/-- A decoded JSONL record of this module: the single Title field. -/
structure JsonRecord where
  Title : String
  deriving DecidableEq

/-- Runtime errors of the embedded reader: iterating the unassigned
`None` file handle (a Python TypeError), or a JSON decoding failure. -/
inductive PyError where
  | typeErr
  | jsonDecodeErr
  deriving DecidableEq

/-- Python text-file line iteration: the lines of the text, each keeping
its trailing newline; a final piece without a trailing newline is also
yielded; an empty text yields nothing. -/
def pyFileLines : List Char → List (List Char)
  | [] => []
  | c :: cs =>
    if c = '\n' then ['\n'] :: pyFileLines cs
    else
      match pyFileLines cs with
      | [] => [[c]]
      | l :: ls => (c :: l) :: ls

/-- The reading loop of `load_jsonl`: strip each line of boundary
whitespace, JSON-decode it, and collect the records in order; a
decoding failure aborts the whole read. -/
def readJsonlRecords : List (List Char) → Except PyError (List JsonRecord)
  | [] => Except.ok []
  | l :: ls =>
    match json_loads_title (stripWs l) with
    | none => Except.error PyError.jsonDecodeErr
    | some t =>
      match readJsonlRecords ls with
      | Except.ok rs => Except.ok (JsonRecord.mk (String.mk t) :: rs)
      | Except.error e => Except.error e

/-- The slash-separated components of a path string (the final one is
the name used by `pathlib.PurePath.suffix`). -/
def pathComponents : List Char → List (List Char)
  | [] => [[]]
  | c :: cs =>
    if c = '/' then [] :: pathComponents cs
    else
      match pathComponents cs with
      | [] => [[c]]
      | l :: ls => (c :: l) :: ls

/-- Embedding of `pathlib.PurePath.suffix`: the extension of the final
path component, from its last dot, provided that dot is neither the
first nor the last character of the component; otherwise the empty
string. -/
def pySuffix (p : String) : String :=
  let name := (pathComponents p.data).getLastD []
  match name.reverse.findIdx? (fun c => c = '.') with
  | none => String.mk []
  | some j =>
    let i := name.length - 1 - j
    if 0 < i ∧ i + 1 < name.length then String.mk (name.drop i) else String.mk []

/-- Embedding of `load_jsonl`: open a handle according to the path
suffix (for the gzip branch the handle yields the decompressed text,
which under the lossless codec model is the stored text), then iterate
its lines and JSON-decode each stripped line.  When the suffix is
neither recognized one, the handle variable keeps its initial `None`
value and the iteration raises a TypeError. -/
def load_jsonl (input_path : String) (file_text : String) :
    Except PyError (List JsonRecord) :=
  let jsonl_file : Option String :=
    if pySuffix input_path = ".gz" then some file_text
    else if pySuffix input_path = ".jsonl" then some file_text
    else none
  match jsonl_file with
  | none => Except.error PyError.typeErr
  | some text => readJsonlRecords (pyFileLines text.data)

/-- Modelled from the spec: `is_none_or_empty` from src.utils.helpers on
the optional explicit file list — true when the value is absent or the
collection is empty. -/
def is_none_or_empty (x : Option (List String)) : Bool :=
  match x with
  | none => true
  | some l => l.isEmpty

/-- Modelled from the spec: `is_none_or_empty` from src.utils.helpers on
the optional glob filter string — true when absent or empty. -/
def is_none_or_empty_str (x : Option String) : Bool :=
  match x with
  | none => true
  | some s => s.isEmpty

/-- Modelled from the spec: `get_absolute_path` from src.utils.helpers
resolves a path to an absolute path; modelled by prefixing a fixed
working directory to relative paths.  Every resolved path is a
non-empty absolute string. -/
def get_absolute_path (p : String) : String :=
  match p.data with
  | '/' :: _ => p
  | _ => String.mk (("/home/user/").data ++ p.data)

/-- Python `str.endswith`: the pattern is a suffix of the string. -/
def pyEndsWith (pat s : String) : Bool := pat.data.isSuffixOf s.data

/-- The two conventional ledger suffixes recognized by the locator's
warning check. -/
def hasBeancountExt (f : String) : Bool :=
  pyEndsWith (".bean") f || pyEndsWith (".beancount") f

/-- Embedding of `get_beancount_files`: the union of the resolved
explicit paths and the glob matches, as a set, together with the flag
telling whether the non-fatal warning about files with an unexpected
extension was printed.  `globMatches` models `glob.glob` on the
resolved filter pattern.  The warning fires when
`any(files_with_non_beancount_extensions)` is truthy, i.e. when the set
of unexpected-extension paths contains a non-empty string. -/
def get_beancount_files (beancount_files : Option (List String))
    (beancount_file_filter : Option String)
    (globMatches : String → List String) : Finset String × Bool :=
  let absolute_beancount_files : Finset String :=
    match beancount_files with
    | some l => if l.isEmpty then ∅ else (l.map get_absolute_path).toFinset
    | none => ∅
  let filtered_beancount_files : Finset String :=
    match beancount_file_filter with
    | some flt =>
      if flt.isEmpty then ∅ else (globMatches (get_absolute_path flt)).toFinset
    | none => ∅
  let all_beancount_files := absolute_beancount_files ∪ filtered_beancount_files
  let files_with_non_beancount_extensions :=
    all_beancount_files.filter fun f => hasBeancountExt f = false
  (all_beancount_files,
   decide (∃ f ∈ files_with_non_beancount_extensions, f ≠ (String.mk [])))

/-- Which of the two writers produced an output file. -/
inductive WriterKind where
  | plain
  | gzipped
  deriving DecidableEq

/-- Observable outcome of one run of the pipeline: the exit code of a
deliberate `exit` call (none when the run falls through normally), the
validation messages printed, the list of entries the function returns,
and the output file written, if any, with the writer that produced it
and the stored bytes. -/
structure RunResult where
  exitCode : Option Nat
  messages : List String
  entries : List String
  written : Option (WriterKind × List Nat)
  deriving DecidableEq

/-- Embedding of the top-level `beancount_to_jsonl`: validate the
inputs (exiting with status 1 when both are absent or empty), locate
the files, extract the entries, serialize them, and write the output
according to the output-file suffix — the gzip writer for `.gz`, the
plain writer for `.jsonl`, and no write at all otherwise.  The
environment is passed as `globMatches` (glob results) and `readFile`
(file contents); the set of located files is iterated in sorted order,
one fixed order of the deduplicated set. -/
def beancount_to_jsonl (beancount_files : Option (List String))
    (beancount_file_filter : Option String) (output_file : String) (verbose : Nat)
    (globMatches : String → List String) (readFile : String → String) : RunResult :=
  if is_none_or_empty beancount_files && is_none_or_empty_str beancount_file_filter then
    ⟨some 1,
     ["At least one of beancount-files or beancount-file-filter is required to be specified"],
     [], none⟩
  else
    let located := get_beancount_files beancount_files beancount_file_filter globMatches
    let files := located.1.sort (· ≤ ·)
    let entries := extract_beancount_entries files readFile
    let jsonl_data := convert_beancount_entries_to_jsonl entries
    if pySuffix output_file = ".gz" then
      ⟨none, [], entries, some (WriterKind.gzipped, (compress_jsonl_data jsonl_data verbose).1)⟩
    else if pySuffix output_file = ".jsonl" then
      ⟨none, [], entries,
       some (WriterKind.plain, pyUtf8Encode (dump_jsonl jsonl_data verbose).1.data)⟩
    else
      ⟨none, [], entries, none⟩

/-- The invariant claimed by the spec for extracted entries, following
the spec's words: the entry, trimmed of boundary whitespace, starts
with a date `YYYY-MM-DD`, one space, a marker that is exactly an
asterisk or an exclamation mark, and one space. -/
def spec_claimed_marker_specs : List (Char → Bool) :=
  [isDigitChar, isDigitChar, isDigitChar, isDigitChar,
   fun c => c == '-', isDigitChar, isDigitChar,
   fun c => c == '-', isDigitChar, isDigitChar,
   fun c => c == ' ',
   fun c => c == '*' || c == '!',
   fun c => c == ' ']

/-- Decidable form of the spec's claimed entry invariant. -/
def spec_entry_invariant (e : String) : Bool :=
  checkSeq spec_claimed_marker_specs (stripWs e.data)

theorem splitChar_ne_nil (cs : List Char) : splitChar cs ≠ [] := by
  induction cs with
  | nil => simp [splitChar]
  | cons c cs ih =>
    simp only [splitChar]
    split
    · simp
    · split <;> simp

theorem newline_not_mem_splitChar (cs : List Char) :
    ∀ l ∈ splitChar cs, ('\n') ∉ l := by
  induction cs with
  | nil =>
    intro l hl
    simp [splitChar] at hl
    simp [hl]
  | cons c cs ih =>
    intro l hl
    simp only [splitChar] at hl
    by_cases hc : c = '\n'
    · rw [if_pos hc] at hl
      rcases List.mem_cons.mp hl with h | h
      · simp [h]
      · exact ih l h
    · rw [if_neg hc] at hl
      rcases hsp : splitChar cs with _ | ⟨l0, ls⟩
      · exact absurd hsp (splitChar_ne_nil cs)
      · rw [hsp] at hl
        rcases List.mem_cons.mp hl with h | h
        · subst h
          intro hmem
          rcases List.mem_cons.mp hmem with h' | h'
          · exact hc h'.symm
          · exact ih l0 (hsp ▸ List.mem_cons_self _ _) h'
        · exact ih l (hsp ▸ List.mem_cons_of_mem _ h)

theorem blocksGo_nil (fuel : Nat) : blocksGo fuel [] = [] := by
  cases fuel with
  | zero => rfl
  | succ f => simp [blocksGo]

theorem takeWhile_eq_self_of_dropWhile_nil {α : Type} (p : α → Bool) (l : List α)
    (h : l.dropWhile p = []) : l.takeWhile p = l := by
  have hsplit := List.takeWhile_append_dropWhile (p := p) (l := l)
  rw [h, List.append_nil] at hsplit
  exact hsplit

theorem dropWhile_eq_cons_imp {α : Type} (p : α → Bool) :
    ∀ (l : List α) (c : α) (t : List α), l.dropWhile p = c :: t → p c = false := by
  intro l
  induction l with
  | nil => intro c t h; simp [List.dropWhile] at h
  | cons a l ih =>
    intro c t h
    by_cases ha : p a = true
    · rw [List.dropWhile_cons, if_pos ha] at h
      exact ih c t h
    · rw [List.dropWhile_cons, if_neg ha] at h
      rcases h with ⟨rfl, rfl⟩ | _
      · exact Bool.not_eq_true _ ▸ Bool.of_not_eq_true ha

theorem stripWs_cons_ws (c : Char) (cs : List Char) (h : isWsChar c = true) :
    stripWs (c :: cs) = stripWs cs := by
  simp [stripWs, List.dropWhile_cons, h]

theorem stripWs_append_ws (cs : List Char) (c : Char) (h : isWsChar c = true) :
    stripWs (cs ++ [c]) = stripWs cs := by
  rcases hd : cs.dropWhile isWsChar with _ | ⟨d, ds⟩
  · have h1 : (cs ++ [c]).dropWhile isWsChar = [] := by
      rw [List.dropWhile_append, hd]
      simp [List.dropWhile_cons, h]
    simp [stripWs, h1, hd]
  · have h1 : (cs ++ [c]).dropWhile isWsChar = (d :: ds) ++ [c] := by
      rw [List.dropWhile_append, hd]
      simp
    simp only [stripWs, h1, hd]
    rw [List.reverse_append]
    simp [List.dropWhile_cons, h]

theorem isDigitChar_newline : isDigitChar '\n' = false := by decide

theorem txnAnchor_nil : txnAnchor [] = false := rfl

theorem txnAnchor_newline_cons (cs : List Char) : txnAnchor ('\n' :: cs) = false := by
  simp [txnAnchor, anchorSpecs, checkSeq, isDigitChar_newline]

theorem anchorSpecs_newline : ∀ p ∈ anchorSpecs, p '\n' = false := by
  intro p hp
  fin_cases hp <;> decide

theorem checkSeq_append_newline :
    ∀ (ps : List (Char → Bool)), (∀ p ∈ ps, p '\n' = false) →
      ∀ cs, checkSeq ps (cs ++ ['\n']) = checkSeq ps cs := by
  intro ps
  induction ps with
  | nil => intro _ cs; rfl
  | cons p ps ih =>
    intro hps cs
    cases cs with
    | nil =>
      have hp : p '\n' = false := hps p (by simp)
      simp [checkSeq, hp]
    | cons c cs' =>
      have hrec := ih (fun q hq => hps q (by simp [hq])) cs'
      simp [checkSeq, hrec]

theorem txnAnchor_append_newline (cs : List Char) :
    txnAnchor (cs ++ ['\n']) = txnAnchor cs :=
  checkSeq_append_newline anchorSpecs anchorSpecs_newline cs

theorem re_match_nil : re_match_transaction [] = false := rfl

theorem re_match_newline_cons (cs : List Char) :
    re_match_transaction ('\n' :: cs) = txnAnchor cs := by
  simp [re_match_transaction, txnAnchor_newline_cons]

theorem re_match_cons_of_ne (c : Char) (cs : List Char) (h : c ≠ '\n') :
    re_match_transaction (c :: cs) = txnAnchor (c :: cs) := by
  unfold re_match_transaction
  have halt : (match c :: cs with
      | '\n' :: rest => txnAnchor rest
      | _ => false) = false := by
    split
    · next rest heq =>
        rw [List.cons.injEq] at heq
        exact absurd heq.1 h
    · rfl
  rw [halt, Bool.or_false]

theorem seg_match_strip (pre tail : List Char) (N : List (List Char))
    (hpre : pre = [] ∨ pre = ['\n']) (htail : tail = [] ∨ tail = ['\n'])
    (hN : ∀ l ∈ N, blankLine l = false) (hnl : ∀ l ∈ N, ('\n') ∉ l) :
    re_match_transaction (pre ++ (joinLines N ++ tail)) = txnAnchor (joinLines N) ∧
    stripWs (pre ++ (joinLines N ++ tail)) = stripWs (joinLines N) := by
  cases N with
  | nil =>
    rcases hpre with rfl | rfl <;> rcases htail with rfl | rfl <;> exact ⟨by decide, by decide⟩
  | cons l0 N' =>
    have hl0 : blankLine l0 = false := hN l0 (List.mem_cons_self _ _)
    cases l0 with
    | nil => exact absurd hl0 (by decide)
    | cons c l0' =>
      have hcnl : c ≠ '\n' := by
        have hmem := hnl (c :: l0') (List.mem_cons_self _ _)
        intro hceq
        exact hmem (hceq ▸ List.mem_cons_self _ _)
      have hshape : ∃ X, joinLines ((c :: l0') :: N') = c :: X := by
        cases N' with
        | nil => exact ⟨l0', rfl⟩
        | cons l1 N'' => exact ⟨l0' ++ '\n' :: joinLines (l1 :: N''), rfl⟩
      obtain ⟨X, hX⟩ := hshape
      rw [hX]
      have hanchor : txnAnchor ((c :: X) ++ tail) = txnAnchor (c :: X) := by
        rcases htail with rfl | rfl
        · rw [List.append_nil]
        · exact txnAnchor_append_newline (c :: X)
      constructor
      · rcases hpre with rfl | rfl
        · rw [List.nil_append]
          have hassoc : (c :: X) ++ tail = c :: (X ++ tail) := rfl
          rw [hassoc, re_match_cons_of_ne c (X ++ tail) hcnl, ← hassoc]
          exact hanchor
        · rw [show (['\n'] ++ ((c :: X) ++ tail)) = '\n' :: ((c :: X) ++ tail) from rfl,
            re_match_newline_cons]
          exact hanchor
      · rcases hpre with rfl | rfl
        · rw [List.nil_append]
          rcases htail with rfl | rfl
          · rw [List.append_nil]
          · exact stripWs_append_ws (c :: X) '\n' (by decide)
        · rw [show (['\n'] ++ ((c :: X) ++ tail)) = '\n' :: ((c :: X) ++ tail) from rfl,
            stripWs_cons_ws '\n' _ (by decide)]
          rcases htail with rfl | rfl
          · rw [List.append_nil]
          · exact stripWs_append_ws (c :: X) '\n' (by decide)

theorem artifact_filter (cond : Prop) [Decidable cond] :
    (if cond then [([] : List Char)] else []).filter re_match_transaction = [] := by
  split <;> simp [List.filter, re_match_nil]

theorem re_match_pre_nil (pre : List Char) (hpre : pre = [] ∨ pre = ['\n']) :
    re_match_transaction pre = false := by
  rcases hpre with rfl | rfl <;> decide

theorem reSplit_blocks_agree :
    ∀ (fuel : Nat) (ls : List (List Char)) (pre : List Char),
      ls.length ≤ fuel → (pre = [] ∨ pre = ['\n']) → (∀ l ∈ ls, ('\n') ∉ l) →
      ((reSplitGo fuel pre ls).filter re_match_transaction).map stripWs =
        ((blocksGo fuel ls).filter txnAnchor).map stripWs := by
  intro fuel
  induction fuel with
  | zero =>
    intro ls pre hlen _ _
    have hls : ls = [] := List.length_eq_zero.mp (Nat.le_zero.mp hlen)
    subst hls
    rfl
  | succ f ih =>
    intro ls pre hlen hpre hnl
    by_cases hrest : (ls.dropWhile fun l => !blankLine l) = []
    · have htake : (ls.takeWhile fun l => !blankLine l) = ls :=
        takeWhile_eq_self_of_dropWhile_nil _ ls hrest
      have hNblank : ∀ l ∈ ls, blankLine l = false := by
        intro l hl
        have hmem : l ∈ ls.takeWhile fun l => !blankLine l := by rw [htake]; exact hl
        have hp := List.mem_takeWhile_imp (l := ls) hmem
        simpa using hp
      have hseg := seg_match_strip pre [] ls hpre (Or.inl rfl) hNblank hnl
      rw [List.append_nil] at hseg
      rw [reSplitGo, blocksGo, if_pos hrest, if_pos hrest]
      by_cases hls : ls = []
      · subst hls
        rw [if_pos rfl]
        rcases hpre with rfl | rfl <;> decide
      · rw [if_neg hls]
        cases ha : txnAnchor (joinLines ls) with
        | false => simp [List.filter, hseg.1, ha]
        | true => simp [List.filter, hseg.1, ha, hseg.2]
    · rw [reSplitGo, blocksGo, if_neg hrest, if_neg hrest]
      rcases hr : (ls.dropWhile fun l => !blankLine l) with _ | ⟨b, t⟩
      · exact absurd hr hrest
      have hb : blankLine b = true := by
        have hcons := dropWhile_eq_cons_imp (fun l => !blankLine l) ls b t hr
        simpa using hcons
      have hdrop2 : (b :: t).dropWhile blankLine = t.dropWhile blankLine := by
        rw [List.dropWhile_cons, if_pos hb]
      rw [hdrop2]
      -- facts about the non-blank prefix
      have hNblank : ∀ l ∈ (ls.takeWhile fun l => !blankLine l), blankLine l = false := by
        intro l hl
        have hp := List.mem_takeWhile_imp (l := ls) hl
        simpa using hp
      have hnlN : ∀ l ∈ (ls.takeWhile fun l => !blankLine l), ('\n') ∉ l := by
        intro l hl
        exact hnl l ((List.takeWhile_sublist _).subset hl)
      -- the recursive tail
      have hlen2 : (t.dropWhile blankLine).length ≤ f := by
        have h1 : (ls.dropWhile fun l => !blankLine l).length ≤ ls.length :=
          (List.dropWhile_sublist _).length_le
        rw [hr] at h1
        have h2 : (t.dropWhile blankLine).length ≤ t.length :=
          (List.dropWhile_sublist _).length_le
        simp only [List.length_cons] at h1
        omega
      have hnl2 : ∀ l ∈ t.dropWhile blankLine, ('\n') ∉ l := by
        intro l hl
        have hlt : l ∈ b :: t := List.mem_cons_of_mem b ((List.dropWhile_sublist _).subset hl)
        rw [← hr] at hlt
        exact hnl l ((List.dropWhile_sublist _).subset hlt)
      set nx := (if t.dropWhile blankLine = [] then [([] : List Char)]
            else reSplitGo f ['\n'] (t.dropWhile blankLine)) with hnx
      have hnext : (nx.filter re_match_transaction).map stripWs =
          ((blocksGo f (t.dropWhile blankLine)).filter txnAnchor).map stripWs := by
        rw [hnx]
        by_cases hrest2 : t.dropWhile blankLine = []
        · rw [if_pos hrest2, hrest2, blocksGo_nil]
          decide
        · rw [if_neg hrest2]
          exact ih (t.dropWhile blankLine) ['\n'] hlen2 (Or.inr rfl) hnl2
      by_cases hN0 : (ls.takeWhile fun l => !blankLine l) = []
      · rw [if_pos hN0, if_pos hN0]
        have hpm : re_match_transaction (pre ++ []) = false := by
          rw [List.append_nil]
          exact re_match_pre_nil pre hpre
        simp only [List.filter_cons, hpm, Bool.false_eq_true, if_false, List.filter_append,
          artifact_filter, List.nil_append]
        exact hnext
      · rw [if_neg hN0, if_neg hN0]
        have hseg := seg_match_strip pre ['\n'] (ls.takeWhile fun l => !blankLine l)
          hpre (Or.inr rfl) hNblank hnlN
        simp only [List.filter_cons, hseg.1, List.filter_append, artifact_filter,
          List.nil_append]
        cases ha : txnAnchor (joinLines (ls.takeWhile fun l => !blankLine l)) with
        | false =>
          simp only [Bool.false_eq_true, if_false]
          exact hnext
        | true =>
          simp only [if_true, List.filter_nil, List.map_cons, List.map_append, List.map_nil,
            List.cons_append, List.nil_append, hseg.2]
          rw [hnext]

theorem hexVal_hexChar : ∀ n, n < 16 → hexVal (hexChar n) = some n := by decide

theorem hexVal_zero : hexVal '0' = some 0 := by decide

theorem parseStr_escapeChar (c : Char) (X : List Char) :
    parseStr (escapeChar c ++ X) = (parseStr X).map fun p => (c :: p.1, p.2) := by
  by_cases h1 : c = '"'
  · subst h1
    rw [show escapeChar '"' = ['\\', '"'] from by decide]
    rw [parseStr.eq_def]
    simp
  by_cases h2 : c = '\\'
  · subst h2
    rw [show escapeChar '\\' = ['\\', '\\'] from by decide]
    rw [parseStr.eq_def]
    simp
  by_cases h3 : c = '\n'
  · subst h3
    rw [show escapeChar '\n' = ['\\', 'n'] from by decide]
    rw [parseStr.eq_def]
    simp
  by_cases h4 : c = '\r'
  · subst h4
    rw [show escapeChar '\r' = ['\\', 'r'] from by decide]
    rw [parseStr.eq_def]
    simp
  by_cases h5 : c = '\t'
  · subst h5
    rw [show escapeChar '\t' = ['\\', 't'] from by decide]
    rw [parseStr.eq_def]
    simp
  by_cases h6 : c = '\x08'
  · subst h6
    rw [show escapeChar '\x08' = ['\\', 'b'] from by decide]
    rw [parseStr.eq_def]
    simp
  by_cases h7 : c = '\x0c'
  · subst h7
    rw [show escapeChar '\x0c' = ['\\', 'f'] from by decide]
    rw [parseStr.eq_def]
    simp
  by_cases h8 : c.toNat < 32
  · have hesc : escapeChar c =
        ['\\', 'u', '0', '0', hexChar (c.toNat / 16), hexChar (c.toNat % 16)] := by
      simp [escapeChar, h1, h2, h3, h4, h5, h6, h7, h8]
    rw [hesc]
    have hhi : c.toNat / 16 < 16 := by omega
    have hlo : c.toNat % 16 < 16 := Nat.mod_lt _ (by omega)
    rw [show (['\\', 'u', '0', '0', hexChar (c.toNat / 16),
        hexChar (c.toNat % 16)] : List Char) ++ X =
        '\\' :: 'u' :: '0' :: '0' :: hexChar (c.toNat / 16) ::
        hexChar (c.toNat % 16) :: X from rfl]
    rw [parseStr.eq_def]
    simp only [hexVal_hexChar _ hhi, hexVal_hexChar _ hlo, hexVal_zero]
    have hval : c.toNat / 16 * 16 + c.toNat % 16 = c.toNat := by omega
    simp [hval]
  · have hesc : escapeChar c = [c] := by
      simp [escapeChar, h1, h2, h3, h4, h5, h6, h7, h8]
    rw [hesc]
    rw [show [c] ++ X = c :: X from rfl]
    rw [parseStr.eq_def]
    simp [h1, h2]

theorem parseStr_jsonEscape (s : List Char) :
    ∀ rest, parseStr (jsonEscape s ++ ('"' :: rest)) = some (s, rest) := by
  induction s with
  | nil =>
    intro rest
    rw [show jsonEscape [] ++ ('"' :: rest) = '"' :: rest from rfl]
    rw [parseStr.eq_def]
    simp
  | cons c cs ih =>
    intro rest
    rw [show jsonEscape (c :: cs) = escapeChar c ++ jsonEscape cs from
      List.flatMap_cons ..]
    rw [List.append_assoc, parseStr_escapeChar, ih rest]
    rfl

theorem hexChar_ne_newline : ∀ n, n < 16 → hexChar n ≠ '\n' := by decide

theorem escapeChar_no_newline (c : Char) : ('\n') ∉ escapeChar c := by
  unfold escapeChar
  split
  · decide
  split
  · decide
  split
  · decide
  split
  · decide
  split
  · decide
  split
  · decide
  split
  · decide
  split
  · next h32 =>
    intro hmem
    simp only [List.mem_cons, List.not_mem_nil, or_false] at hmem
    rcases hmem with h | h | h | h | h | h
    · exact absurd h.symm (by decide)
    · exact absurd h.symm (by decide)
    · exact absurd h.symm (by decide)
    · exact absurd h.symm (by decide)
    · exact hexChar_ne_newline _ (by omega) h.symm
    · exact hexChar_ne_newline _ (by omega) h.symm
  · next hne1 hne2 hne3 hne4 hne5 hne6 hne7 hne8 =>
    intro hmem
    simp only [List.mem_cons, List.not_mem_nil, or_false] at hmem
    exact hne3 hmem.symm

theorem json_dumps_title_no_newline (e : List Char) :
    ('\n') ∉ json_dumps_title e := by
  unfold json_dumps_title
  intro hmem
  rw [List.mem_append, List.mem_append] at hmem
  rcases hmem with (h | h) | h
  · revert h; decide
  · rw [jsonEscape, List.mem_flatMap] at h
    obtain ⟨c, _, hc⟩ := h
    exact escapeChar_no_newline c hc
  · revert h; decide

theorem pyFileLines_append (r : List Char) (hr : ('\n') ∉ r) (t : List Char) :
    pyFileLines (r ++ '\n' :: t) = (r ++ ['\n']) :: pyFileLines t := by
  induction r with
  | nil => simp [pyFileLines]
  | cons a r' ih =>
    have ha : a ≠ '\n' := fun h => hr (h ▸ List.mem_cons_self _ _)
    have hr' : ('\n') ∉ r' := fun h => hr (List.mem_cons_of_mem _ h)
    rw [List.cons_append, pyFileLines, if_neg ha, ih hr']
    simp

theorem pyFileLines_records (records : List (List Char))
    (h : ∀ r ∈ records, ('\n') ∉ r) :
    pyFileLines ((records.map fun r => r ++ ['\n']).flatten) =
      records.map fun r => r ++ ['\n'] := by
  induction records with
  | nil => rfl
  | cons r rs ih =>
    rw [List.map_cons, List.flatten_cons, List.append_assoc,
      List.singleton_append, pyFileLines_append r (h r (List.mem_cons_self _ _))]
    rw [ih fun q hq => h q (List.mem_cons_of_mem _ hq)]

theorem stripWs_eq_self (c d : Char) (mid : List Char)
    (hc : isWsChar c = false) (hd : isWsChar d = false) :
    stripWs (c :: (mid ++ [d])) = c :: (mid ++ [d]) := by
  unfold stripWs
  rw [List.dropWhile_cons, if_neg (by simp [hc])]
  have h1 : (c :: (mid ++ [d])).reverse = d :: (mid.reverse ++ [c]) := by simp
  rw [h1, List.dropWhile_cons, if_neg (by simp [hd]), ← h1, List.reverse_reverse]

theorem json_dumps_title_shape (e : List Char) :
    json_dumps_title e =
      '{' :: (('"' :: 'T' :: 'i' :: 't' :: 'l' :: 'e' :: '"' :: ':' :: ' ' :: '"' ::
        jsonEscape e ++ ['"']) ++ ['}']) := by
  simp [json_dumps_title, titleKey]

theorem stripWs_dump_line (e : List Char) :
    stripWs (json_dumps_title e ++ ['\n']) = json_dumps_title e := by
  rw [stripWs_append_ws _ '\n' (by decide), json_dumps_title_shape,
    stripWs_eq_self '{' '}' _ (by decide) (by decide)]

theorem json_loads_dumps (e : List Char) :
    json_loads_title (json_dumps_title e) = some e := by
  have hp := parseStr_jsonEscape e ['}']
  rw [show json_dumps_title e =
      '{' :: '"' :: 'T' :: 'i' :: 't' :: 'l' :: 'e' :: '"' :: ':' :: ' ' :: '"' ::
        (jsonEscape e ++ ('"' :: ['}'])) from by simp [json_dumps_title, titleKey]]
  simp [json_loads_title, hp]

theorem readJsonl_convert (es : List String) :
    readJsonlRecords ((es.map fun e => json_dumps_title e.data).map fun r => r ++ ['\n']) =
      Except.ok (es.map fun e => JsonRecord.mk e) := by
  induction es with
  | nil => rfl
  | cons e es ih =>
    rw [List.map_cons, List.map_cons, readJsonlRecords, stripWs_dump_line,
      json_loads_dumps, ih]
    rfl

theorem splitChar_append_newline (r : List Char) (hr : ('\n') ∉ r) (t : List Char) :
    splitChar (r ++ '\n' :: t) = r :: splitChar t := by
  induction r with
  | nil => simp [splitChar]
  | cons a r' ih =>
    have ha : a ≠ '\n' := fun h => hr (h ▸ List.mem_cons_self _ _)
    have hr' : ('\n') ∉ r' := fun h => hr (List.mem_cons_of_mem _ h)
    rw [List.cons_append, splitChar, if_neg ha, ih hr']

theorem splitChar_records_length (records : List (List Char))
    (h : ∀ r ∈ records, ('\n') ∉ r) :
    (splitChar ((records.map fun r => r ++ ['\n']).flatten)).length =
      records.length + 1 := by
  induction records with
  | nil => rfl
  | cons r rs ih =>
    rw [List.map_cons, List.flatten_cons, List.append_assoc, List.singleton_append,
      splitChar_append_newline r (h r (List.mem_cons_self _ _))]
    rw [List.length_cons, ih fun q hq => h q (List.mem_cons_of_mem _ hq)]
    simp

theorem map_dump_nl (entries : List String) :
    entries.map (fun e => json_dumps_title e.data ++ ['\n']) =
      (entries.map fun e => json_dumps_title e.data).map fun r => r ++ ['\n'] := by
  rw [List.map_map]
  rfl

theorem records_no_newline (entries : List String) :
    ∀ r ∈ entries.map fun e => json_dumps_title e.data, ('\n') ∉ r := by
  intro r hr
  obtain ⟨e, _, rfl⟩ := List.mem_map.mp hr
  exact json_dumps_title_no_newline e.data

theorem get_absolute_path_ne_empty (p : String) :
    get_absolute_path p ≠ String.mk [] := by
  unfold get_absolute_path
  split
  · next t heq =>
    intro hcontra
    have hdata := congrArg String.data hcontra
    rw [heq] at hdata
    exact absurd hdata (by simp)
  · intro hcontra
    have hdata := congrArg String.data hcontra
    exact absurd hdata (by simp)

/-- C1: the claimed invariant — every extracted entry, after trimming,
starts with a date, a space, a marker that is exactly an asterisk or an
exclamation mark, and a space — fails on the code: the character class
written `[\*|\!]` in `transaction_regex` also matches the pipe
character, so a ledger whose transaction line starts
`2024-03-05 | ` is extracted as an entry whose marker position holds a
pipe, which the claimed invariant rejects. -/
theorem c1_pipe_marker_breaks_invariant :
    extract_beancount_entries ["ledger.beancount"]
        (fun _ => "2024-03-05 | Lunch at cafe\n  Expenses:Food  10.00 USD\n") =
      ["2024-03-05 | Lunch at cafe\n  Expenses:Food  10.00 USD"] ∧
    spec_entry_invariant ("2024-03-05 | Lunch at cafe\n  Expenses:Food  10.00 USD") =
      false ∧
    (stripWs ("2024-03-05 | Lunch at cafe\n  Expenses:Food  10.00 USD").data).getD 11 ' ' =
      '|' := by
  refine ⟨by decide, by decide, by decide⟩

/-- C2: the extractor returns exactly the blank-line-separated segments
of the file text whose leading content matches the transaction-start
anchor, each trimmed of boundary whitespace, in order of appearance —
stated as the equality, for every file content, of the implemented
extraction with the spec's clean segment description — and, concretely,
a file with two blank-line-separated transactions yields exactly the
two trimmed entries with their internal line structure preserved, while
an empty file yields no entries. -/
theorem c2_extractor_returns_matching_segments :
    (∀ content : String,
      extract_entries_from_content content.data = spec_extract_entries content.data) ∧
    extract_beancount_entries ["ledger.beancount"]
        (fun _ =>
          "2021-01-01 * \"Cafe\" \"Lunch\"\n  Expenses:Food  10.00 USD\n  Assets:Cash\n\n2021-01-02 ! \"Cafe\" \"Dinner\"\n  Expenses:Food  20.00 USD\n  Assets:Cash\n") =
      ["2021-01-01 * \"Cafe\" \"Lunch\"\n  Expenses:Food  10.00 USD\n  Assets:Cash",
       "2021-01-02 ! \"Cafe\" \"Dinner\"\n  Expenses:Food  20.00 USD\n  Assets:Cash"] ∧
    extract_beancount_entries ["empty.beancount"] (fun _ => "") = [] := by
  refine ⟨fun content => ?_, by decide, by decide⟩
  unfold extract_entries_from_content spec_extract_entries re_split_blank
    spec_blank_separated_segments
  exact reSplit_blocks_agree _ _ [] le_rfl (Or.inl rfl) (newline_not_mem_splitChar _)

/-- C3: writing any list of entries through the emitter
(`convert_beancount_entries_to_jsonl` then `dump_jsonl` to a path with
suffix `.jsonl`) and reading the file back with `load_jsonl` yields
exactly one record per entry, in the same order, whose Title field is
byte-for-byte the original entry string, embedded newlines included. -/
theorem c3_emitter_reader_roundtrip (entries : List String) (verbose : Nat) :
    load_jsonl ("notes.jsonl")
        (dump_jsonl (convert_beancount_entries_to_jsonl entries) verbose).1 =
      Except.ok (entries.map fun e => JsonRecord.mk e) := by
  unfold load_jsonl
  rw [if_neg (by decide), if_pos (by decide)]
  show readJsonlRecords
      (pyFileLines (convert_beancount_entries_to_jsonl entries).data) = _
  unfold convert_beancount_entries_to_jsonl
  rw [show (String.mk ((entries.map fun e => json_dumps_title e.data ++ ['\n']).flatten)).data
      = (entries.map fun e => json_dumps_title e.data ++ ['\n']).flatten from rfl]
  rw [map_dump_nl, pyFileLines_records _ (records_no_newline entries)]
  exact readJsonl_convert entries

/-- C7: the gzip writer and the plain writer persist the same bytes up
to compression — decompressing what `compress_jsonl_data` stores gives
exactly the UTF-8 bytes that `dump_jsonl` writes for the same JSONL
data. -/
theorem c7_compressed_equals_plain (jsonl_data : String) (verbose : Nat) :
    gzip_decompress_bytes (compress_jsonl_data jsonl_data verbose).1 =
      pyUtf8Encode (dump_jsonl jsonl_data verbose).1.data := rfl

/-- C8 counterexample: with exactly one entry and verbose enabled, the
writer's report counts 2 lines (the claim says it equals the number of
JSON lines written, which is 1): the written file holds exactly one
line. -/
theorem c8_reported_count_counterexample :
    (dump_jsonl (convert_beancount_entries_to_jsonl ["2024-01-02 * \"a\" \"b\""]) 1).2 =
      some 2 ∧
    (dump_jsonl (convert_beancount_entries_to_jsonl ["2024-01-02 * \"a\" \"b\""]) 1).2 ≠
      some 1 ∧
    (pyFileLines
      (dump_jsonl (convert_beancount_entries_to_jsonl ["2024-01-02 * \"a\" \"b\""]) 1).1.data).length =
      1 := by
  refine ⟨by decide, by decide, by decide⟩

/-- C8 amended: for N entries written with verbosity greater than zero,
the count reported by either writer equals N + 1 — one more than the
number of JSON lines actually written, because `len(data.split('\n'))`
also counts the empty piece after the final newline. -/
theorem c8_reported_count_amended (entries : List String) (verbose : Nat)
    (hv : 0 < verbose) :
    (dump_jsonl (convert_beancount_entries_to_jsonl entries) verbose).2 =
      some (entries.length + 1) ∧
    (compress_jsonl_data (convert_beancount_entries_to_jsonl entries) verbose).2 =
      some (entries.length + 1) ∧
    (pyFileLines (convert_beancount_entries_to_jsonl entries).data).length =
      entries.length := by
  have hdata : (convert_beancount_entries_to_jsonl entries).data =
      ((entries.map fun e => json_dumps_title e.data).map fun r => r ++ ['\n']).flatten := by
    unfold convert_beancount_entries_to_jsonl
    rw [← map_dump_nl]
  have hsplit := splitChar_records_length _ (records_no_newline entries)
  have hlines := pyFileLines_records _ (records_no_newline entries)
  refine ⟨?_, ?_, ?_⟩
  · unfold dump_jsonl
    rw [if_pos hv, hdata, hsplit]
    simp
  · unfold compress_jsonl_data
    rw [if_pos hv, hdata, hsplit]
    simp
  · rw [hdata, hlines]
    simp

/-- C8 amended witness: the amended count at a concrete input. -/
theorem c8_reported_count_amended_witness :
    0 < 1 ∧
    ((dump_jsonl (convert_beancount_entries_to_jsonl ["2024-01-02 * \"a\" \"b\""]) 1).2 =
        some 2 ∧
      (compress_jsonl_data (convert_beancount_entries_to_jsonl ["2024-01-02 * \"a\" \"b\""]) 1).2 =
        some 2 ∧
      (pyFileLines
        (convert_beancount_entries_to_jsonl ["2024-01-02 * \"a\" \"b\""]).data).length = 1) :=
  ⟨by decide, c8_reported_count_amended ["2024-01-02 * \"a\" \"b\""] 1 (by decide)⟩

/-- C10: for every input path whose suffix is neither `.gz` nor
`.jsonl`, `load_jsonl` never opens a file: the handle keeps its `None`
value and iterating it raises a TypeError, so the call errors instead
of returning a (possibly empty) record list. -/
theorem c10_load_jsonl_unrecognized_suffix_errors (input_path file_text : String)
    (h1 : pySuffix input_path ≠ ".gz") (h2 : pySuffix input_path ≠ ".jsonl") :
    load_jsonl input_path file_text = Except.error PyError.typeErr := by
  unfold load_jsonl
  rw [if_neg h1, if_neg h2]

/-- C10 witness: a `.txt` path errors concretely. -/
theorem c10_load_jsonl_unrecognized_suffix_errors_witness :
    pySuffix ("out.txt") ≠ ".gz" ∧ pySuffix ("out.txt") ≠ ".jsonl" ∧
    load_jsonl ("out.txt") ("anything") = Except.error PyError.typeErr :=
  ⟨by decide, by decide,
   c10_load_jsonl_unrecognized_suffix_errors ("out.txt") ("anything")
     (by decide) (by decide)⟩

/-- C4: when the output suffix is neither `.gz` nor `.jsonl`, the
pipeline writes no output file through either writer, and — provided
the input validation passes — the run completes normally, with no exit
call and no error. -/
theorem c4_unrecognized_suffix_silent_no_write
    (beancount_files : Option (List String)) (beancount_file_filter : Option String)
    (output_file : String) (verbose : Nat) (globMatches : String → List String)
    (readFile : String → String)
    (h1 : pySuffix output_file ≠ ".gz") (h2 : pySuffix output_file ≠ ".jsonl") :
    (beancount_to_jsonl beancount_files beancount_file_filter output_file verbose
        globMatches readFile).written = none ∧
    ((is_none_or_empty beancount_files && is_none_or_empty_str beancount_file_filter) =
        false →
      (beancount_to_jsonl beancount_files beancount_file_filter output_file verbose
          globMatches readFile).exitCode = none) := by
  unfold beancount_to_jsonl
  by_cases hval :
      (is_none_or_empty beancount_files && is_none_or_empty_str beancount_file_filter) = true
  · rw [if_pos hval]
    exact ⟨rfl, fun hcontra => absurd hval (by simp [hcontra])⟩
  · rw [if_neg hval, if_neg h1, if_neg h2]
    exact ⟨rfl, fun _ => rfl⟩

/-- C4 witness: a `.txt` output path on a valid invocation. -/
theorem c4_unrecognized_suffix_silent_no_write_witness :
    pySuffix ("out.txt") ≠ ".gz" ∧ pySuffix ("out.txt") ≠ ".jsonl" ∧
    ((beancount_to_jsonl (some ["l.beancount"]) none ("out.txt") 0 (fun _ => [])
        (fun _ => "")).written = none ∧
     ((is_none_or_empty (some ["l.beancount"]) && is_none_or_empty_str none) = false →
       (beancount_to_jsonl (some ["l.beancount"]) none ("out.txt") 0 (fun _ => [])
          (fun _ => "")).exitCode = none)) :=
  ⟨by decide, by decide,
   c4_unrecognized_suffix_silent_no_write (some ["l.beancount"]) none ("out.txt") 0
     (fun _ => []) (fun _ => "") (by decide) (by decide)⟩

/-- C5: when both the explicit file list and the glob filter are absent
or empty, the pipeline prints the validation message and exits with
status 1 before touching any file: the outcome does not depend on the
filesystem (glob results or file contents), nothing is written, and no
entries are produced. -/
theorem c5_missing_inputs_exit_before_io
    (beancount_files : Option (List String)) (beancount_file_filter : Option String)
    (output_file : String) (verbose : Nat)
    (h1 : is_none_or_empty beancount_files = true)
    (h2 : is_none_or_empty_str beancount_file_filter = true)
    (g1 g2 : String → List String) (fs1 fs2 : String → String) :
    beancount_to_jsonl beancount_files beancount_file_filter output_file verbose g1 fs1 =
      beancount_to_jsonl beancount_files beancount_file_filter output_file verbose g2 fs2 ∧
    (beancount_to_jsonl beancount_files beancount_file_filter output_file verbose
        g1 fs1).exitCode = some 1 ∧
    (beancount_to_jsonl beancount_files beancount_file_filter output_file verbose
        g1 fs1).written = none ∧
    (beancount_to_jsonl beancount_files beancount_file_filter output_file verbose
        g1 fs1).messages =
      ["At least one of beancount-files or beancount-file-filter is required to be specified"] := by
  unfold beancount_to_jsonl
  rw [if_pos (by simp [h1, h2]), if_pos (by simp [h1, h2])]
  exact ⟨rfl, rfl, rfl, rfl⟩

/-- C5 witness: the missing-input exit at concrete arguments. -/
theorem c5_missing_inputs_exit_before_io_witness :
    is_none_or_empty none = true ∧ is_none_or_empty_str (some (String.mk [])) = true ∧
    (beancount_to_jsonl none (some (String.mk [])) ("out.jsonl") 0 (fun _ => ["a"])
        (fun _ => "x") =
      beancount_to_jsonl none (some (String.mk [])) ("out.jsonl") 0 (fun _ => [])
        (fun _ => "") ∧
     (beancount_to_jsonl none (some (String.mk [])) ("out.jsonl") 0 (fun _ => ["a"])
        (fun _ => "x")).exitCode = some 1 ∧
     (beancount_to_jsonl none (some (String.mk [])) ("out.jsonl") 0 (fun _ => ["a"])
        (fun _ => "x")).written = none ∧
     (beancount_to_jsonl none (some (String.mk [])) ("out.jsonl") 0 (fun _ => ["a"])
        (fun _ => "x")).messages =
       ["At least one of beancount-files or beancount-file-filter is required to be specified"]) :=
  ⟨by decide, by decide,
   c5_missing_inputs_exit_before_io none (some (String.mk [])) ("out.jsonl") 0
     (by decide) (by decide) (fun _ => ["a"]) (fun _ => []) (fun _ => "x") (fun _ => "")⟩

/-- C6: a resolved explicit input path whose name ends in neither
`.bean` nor `.beancount` is kept in the returned set of files to
process, and its presence makes the locator emit the non-fatal
warning. -/
theorem c6_non_ledger_extension_warned_and_kept
    (l : List String) (p : String) (beancount_file_filter : Option String)
    (globMatches : String → List String)
    (hp : p ∈ l)
    (hext : hasBeancountExt (get_absolute_path p) = false) :
    get_absolute_path p ∈
      (get_beancount_files (some l) beancount_file_filter globMatches).1 ∧
    (get_beancount_files (some l) beancount_file_filter globMatches).2 = true := by
  have hl : l.isEmpty = false := by
    cases l with
    | nil => cases hp
    | cons a t => rfl
  have hmem : get_absolute_path p ∈
      (get_beancount_files (some l) beancount_file_filter globMatches).1 := by
    unfold get_beancount_files
    simp only [hl, Bool.false_eq_true, if_false]
    exact Finset.mem_union_left _ (List.mem_toFinset.mpr (List.mem_map_of_mem _ hp))
  refine ⟨hmem, ?_⟩
  exact decide_eq_true
    ⟨get_absolute_path p, Finset.mem_filter.mpr ⟨hmem, hext⟩,
     get_absolute_path_ne_empty p⟩

/-- C6 witness: a `.txt` file in the explicit list is kept and makes
the warning fire. -/
theorem c6_non_ledger_extension_warned_and_kept_witness :
    ("ledger.txt" : String) ∈ ["ledger.txt"] ∧
    hasBeancountExt (get_absolute_path ("ledger.txt")) = false ∧
    (get_absolute_path ("ledger.txt") ∈
        (get_beancount_files (some ["ledger.txt"]) none (fun _ => [])).1 ∧
     (get_beancount_files (some ["ledger.txt"]) none (fun _ => [])).2 = true) :=
  ⟨by decide, by decide,
   c6_non_ledger_extension_warned_and_kept ["ledger.txt"] ("ledger.txt") none
     (fun _ => []) (by decide) (by decide)⟩

/-- C9: on a valid invocation the pipeline returns the full list of
entries extracted from the located files, and the returned list is the
same whatever the output path — in particular also when the suffix is
unrecognized and no writer runs. -/
theorem c9_entries_returned_independent_of_output
    (beancount_files : Option (List String)) (beancount_file_filter : Option String)
    (verbose : Nat) (globMatches : String → List String) (readFile : String → String)
    (out1 out2 : String)
    (h : (is_none_or_empty beancount_files &&
        is_none_or_empty_str beancount_file_filter) = false) :
    (beancount_to_jsonl beancount_files beancount_file_filter out1 verbose
        globMatches readFile).entries =
      extract_beancount_entries
        ((get_beancount_files beancount_files beancount_file_filter globMatches).1.sort
          (· ≤ ·)) readFile ∧
    (beancount_to_jsonl beancount_files beancount_file_filter out1 verbose
        globMatches readFile).entries =
      (beancount_to_jsonl beancount_files beancount_file_filter out2 verbose
          globMatches readFile).entries := by
  have key : ∀ out, (beancount_to_jsonl beancount_files beancount_file_filter out verbose
      globMatches readFile).entries =
      extract_beancount_entries
        ((get_beancount_files beancount_files beancount_file_filter globMatches).1.sort
          (· ≤ ·)) readFile := by
    intro out
    unfold beancount_to_jsonl
    rw [if_neg (by simp [h])]
    by_cases hgz : pySuffix out = ".gz"
    · rw [if_pos hgz]
    · rw [if_neg hgz]
      by_cases hj : pySuffix out = ".jsonl"
      · rw [if_pos hj]
      · rw [if_neg hj]
  exact ⟨key out1, (key out1).trans (key out2).symm⟩

/-- C9 witness: the returned entries at concrete arguments, with an
unrecognized suffix on one side and a recognized one on the other. -/
theorem c9_entries_returned_independent_of_output_witness :
    (is_none_or_empty (some ["l.beancount"]) && is_none_or_empty_str none) = false ∧
    ((beancount_to_jsonl (some ["l.beancount"]) none ("out.txt") 0 (fun _ => [])
        (fun _ => "2021-01-01 * x\n  a\n")).entries =
      extract_beancount_entries
        ((get_beancount_files (some ["l.beancount"]) none (fun _ => [])).1.sort (· ≤ ·))
        (fun _ => "2021-01-01 * x\n  a\n") ∧
     (beancount_to_jsonl (some ["l.beancount"]) none ("out.txt") 0 (fun _ => [])
        (fun _ => "2021-01-01 * x\n  a\n")).entries =
      (beancount_to_jsonl (some ["l.beancount"]) none ("out.jsonl") 0 (fun _ => [])
          (fun _ => "2021-01-01 * x\n  a\n")).entries) :=
  ⟨by decide,
   c9_entries_returned_independent_of_output (some ["l.beancount"]) none 0 (fun _ => [])
     (fun _ => "2021-01-01 * x\n  a\n") ("out.txt") ("out.jsonl") (by decide)⟩
